import Mathlib

/-!
Shallow embedding of the cobalt-rs reliability layer.

The repository snapshot carries the server multiplexer
(`src/server/server.rs`) and the connection test-suite
(`src/tests/connection.rs`).  The connection engine itself
(`shared::Connection`) is not part of the snapshot, so its behaviour is
modelled from the specification, with every byte-level layout
cross-checked against the packets hard-coded in the test-suite.
Times are threaded explicitly (milliseconds as `Nat`); socket
addresses, which never influence the connection logic, are omitted
from the connection model and abstracted to `Nat` in the server model.
-/

namespace Cobalt

/-- Modelled from the spec: the three message classes of §3
(`0` Instant, `1` Reliable, `2` Ordered); `shared::MessageKind` is
absent from the snapshot. -/
inductive MessageKind where
  | Instant
  | Reliable
  | Ordered
deriving DecidableEq

/-- Modelled from the spec: the wire byte of each message kind (§3). -/
def MessageKind.toByte : MessageKind → Nat
  | .Instant => 0
  | .Reliable => 1
  | .Ordered => 2

/-- Modelled from the spec: decoding of a message-kind byte (§3). -/
def kindOfByte : Nat → Option MessageKind
  | 0 => some .Instant
  | 1 => some .Reliable
  | 2 => some .Ordered
  | _ => none

/-- Modelled from the spec: an application message together with its
ordering metadata (§3). -/
structure Message where
  kind : MessageKind
  orderChannel : Nat
  orderSeq : Nat
  payload : List Nat
deriving DecidableEq

/-- Modelled from the spec: the 4-byte record prefix plus payload (§3).
The byte strings asserted by `tests/connection.rs`
(`test_send_and_receive_messages`: the second ordered message is
emitted as `2, 1, 0, 5, …`) fix the prefix order as
`{kind, order_seq, order_channel, length}`. -/
def serializeMessage (m : Message) : List Nat :=
  m.kind.toByte :: m.orderSeq % 256 :: m.orderChannel % 256 ::
    m.payload.length % 256 :: m.payload

/-- Field order exactly as the specification's §3 table words it:
`{kind, order_channel, order_seq, length}`.  Kept separate so it can
be compared with `serializeMessage`, which follows the test-suite. -/
def serializeMessageSpecOrder (m : Message) : List Nat :=
  m.kind.toByte :: m.orderChannel % 256 :: m.orderSeq % 256 ::
    m.payload.length % 256 :: m.payload

/-- Concatenation of the serialized records of a message block. -/
def serializeMessages (ms : List Message) : List Nat :=
  ms.foldr (fun m acc => serializeMessage m ++ acc) []

/-- Modelled from the spec: the per-connection configuration record
(§3, defaults of §6); `shared::Config` is absent from the snapshot. -/
structure Config where
  protocolHeader : List Nat := [1, 2, 3, 4]
  sendRate : Nat := 30
  packetMaxSize : Nat := 1400
  packetDropThreshold : Nat := 1000
  connectionDropThreshold : Nat := 1000
  connectionClosingThreshold : Nat := 100
  congestionRttThreshold : Nat := 500
  congestionDivider : Nat := 2
deriving DecidableEq

/-- The representative default configuration of §6. -/
def Config.default : Config := {}

/-- Modelled from the spec: `a` is more recent than `b` in 8-bit
wrap-around order when the forward distance from `b` to `a` is non-zero
and at most 128 (§4.2). -/
def seqMoreRecent (a b : Nat) : Bool :=
  let d := (a % 256 + 256 - b % 256) % 256
  0 < d && d ≤ 128

/-- Modelled from the spec: bit `i` of the acknowledgment bitfield is
set iff remote sequence `ack − 1 − i (mod 256)` was received (§3). -/
def ackBitfield (ack : Nat) (received : List Nat) : Nat :=
  (List.range 32).foldl
    (fun acc i => if (ack + 255 - i) % 256 ∈ received then acc + 2 ^ i else acc) 0

/-- Big-endian bytes of a 32-bit value. -/
def u32Bytes (b : Nat) : List Nat :=
  [b / 2 ^ 24 % 256, b / 2 ^ 16 % 256, b / 2 ^ 8 % 256, b % 256]

/-- Big-endian bytes of the 32-bit connection identifier. -/
def idBytes (i : Nat) : List Nat := u32Bytes i

/-- Modelled from the spec: a sent-ledger entry
`{local_seq, send_time, messages}` (§3).  The `packet_lost` hook of the
test-suite receives the Instant records as well, so the entry keeps the
whole message block; only Reliable and Ordered records are re-queued. -/
structure SentEntry where
  seq : Nat
  sendTime : Nat
  messages : List Message
deriving DecidableEq

/-- Modelled from the spec: the five connection states (§4.7). -/
inductive ConnectionState where
  | Connecting
  | Connected
  | Closing
  | Closed
  | Lost
deriving DecidableEq

/-- Modelled from the spec: one ordered channel's reassembly state —
the expected next order sequence and the pending buffer (§3, §4.4). -/
structure OrdChan where
  next : Nat
  buffer : List Message
deriving DecidableEq

/-- Drain the reassembly buffer: repeatedly move the message whose
`order_seq` equals the cursor to the delivered list, advancing the
cursor (§4.4).  Structured with explicit fuel (one unit per delivery;
the buffer length suffices) so that the definition is structurally
recursive.  Returns (delivered, cursor, remaining buffer). -/
def drainBufA : Nat → Nat → List Message → List Message × Nat × List Message
  | 0, next, buf => ([], next, buf)
  | fuel + 1, next, buf =>
    match buf.find? (fun m => m.orderSeq == next) with
    | none => ([], next, buf)
    | some m =>
      let r := drainBufA fuel ((next + 1) % 256) (buf.erase m)
      (m :: r.1, r.2.1, r.2.2)

/-- Modelled from the spec: inbound handling of one ordered message —
deliver it if its `order_seq` equals the channel cursor (then drain the
buffer of now-consecutive messages), drop it if already delivered or
already pending, buffer it otherwise (§4.4). -/
def ordRecv (ch : OrdChan) (m : Message) : OrdChan × List Message :=
  if m.orderSeq == ch.next then
    let r := drainBufA ch.buffer.length ((ch.next + 1) % 256) ch.buffer
    (⟨r.2.1, r.2.2⟩, m :: r.1)
  else if seqMoreRecent ch.next m.orderSeq then
    (ch, [])
  else if ch.buffer.any (fun b => b.orderSeq == m.orderSeq) then
    (ch, [])
  else
    (⟨ch.next, ch.buffer ++ [m]⟩, [])

/-- Feed a wire-ordered list of messages through one ordered channel,
collecting the delivered messages in delivery order. -/
def ordRun (ch : OrdChan) : List Message → OrdChan × List Message
  | [] => (ch, [])
  | m :: ms =>
    let r := ordRecv ch m
    let rr := ordRun r.1 ms
    (rr.1, r.2 ++ rr.2)

/-- Modelled from the spec: the connection engine's mutable state
(§3–§4.7); `shared::Connection` is absent from the snapshot.
`remoteReceived` records every remote sequence seen, from which the
32-bit acknowledgment window is computed on send. -/
structure Connection where
  config : Config
  id : Nat
  state : ConnectionState
  localSeq : Nat
  remoteSeq : Nat
  remoteReceived : List Nat
  sentLedger : List SentEntry
  instantQ : List Message
  reliableQ : List Message
  orderedQ : List Message
  orderCounter : Nat
  recvChannels : List (Nat × OrdChan)
  inbox : List (List Nat)
  rtt : ℚ
  lostCount : Nat
  ackedCount : Nat
  closeTime : Nat
  lastRecvTime : Nat
deriving DecidableEq

/-- Modelled from the spec: a fresh connection starts Connecting with
zeroed counters and empty queues (§3 lifecycles, `test_create`). -/
def Connection.new (cfg : Config) (cid : Nat) : Connection :=
  ⟨cfg, cid, .Connecting, 0, 0, [], [], [], [], [], 0, [], [], 0, 0, 0, 0, 0⟩

/-- Modelled from the spec: `open()` is false exactly in the terminal
states Closed and Lost (§4.7). -/
def Connection.isOpen (c : Connection) : Bool :=
  match c.state with
  | .Closed => false
  | .Lost => false
  | _ => true

/-- Modelled from the spec: local `close()` moves an establishing or
established connection to Closing, recording the time (§4.7). -/
def Connection.close (c : Connection) (now : Nat) : Connection :=
  match c.state with
  | .Connecting => { c with state := .Closing, closeTime := now }
  | .Connected => { c with state := .Closing, closeTime := now }
  | _ => c

/-- Modelled from the spec: `send(kind, payload)` queues a message;
an Ordered message is stamped with the channel-0 order counter, which
increments modulo 256 per ordered send (§4.3). -/
def Connection.send (c : Connection) (kind : MessageKind) (payload : List Nat) :
    Connection :=
  match kind with
  | .Instant => { c with instantQ := c.instantQ ++ [⟨.Instant, 0, 0, payload⟩] }
  | .Reliable => { c with reliableQ := c.reliableQ ++ [⟨.Reliable, 0, 0, payload⟩] }
  | .Ordered =>
      { c with
        orderedQ := c.orderedQ ++ [⟨.Ordered, 0, c.orderCounter % 256, payload⟩],
        orderCounter := (c.orderCounter + 1) % 256 }

/-- Result of draining one outbound queue against a byte budget. -/
structure DrainResult where
  taken : List Message
  rest : List Message
  left : Nat

/-- Modelled from the spec: pull messages in FIFO order until the next
one would overflow the remaining budget (§4.3). -/
def drainList (budget : Nat) : List Message → DrainResult
  | [] => ⟨[], [], budget⟩
  | m :: rest =>
    if 4 + m.payload.length ≤ budget then
      let r := drainList (budget - (4 + m.payload.length)) rest
      ⟨m :: r.taken, r.rest, r.left⟩
    else ⟨[], m :: rest, budget⟩

/-- Modelled from the spec: the exponential moving average
`rtt ← rtt + 0.1 · (sample − rtt)` (§4.6). -/
def updateRtt (r sample : ℚ) : ℚ := r + (sample - r) / 10

/-- Modelled from the spec: a ledger entry is acknowledged when its
sequence equals `remote_ack`, or when `(remote_ack − seq − 1) mod 256`
is below 32 and the corresponding bitfield bit is set (§4.5). -/
def ackedEntry (ack bits : Nat) (e : SentEntry) : Bool :=
  e.seq == ack ||
    (let i := (ack + 255 - e.seq % 256) % 256
     decide (i < 32) && bits.testBit i)

/-- Outcome of acknowledgment and loss processing over the ledger. -/
structure LedgerResult where
  kept : List SentEntry
  rtt : ℚ
  ackedN : Nat
  lostN : Nat
  requeueReliable : List Message
  requeueOrdered : List Message
  lostBlocks : List (List Nat)

/-- Modelled from the spec, §4.5: acknowledged entries update the RTT
estimate with `now − send_time − tick_delay`; of the remaining entries
those older than `packet_drop_threshold` are lost — their Reliable and
Ordered records are collected for re-queuing, their serialized block
is reported to the `packet_lost` hook, and the loss counter grows;
Instant records are discarded. -/
def processLedger (threshold now tickDelay ack bits : Nat)
    (ledger : List SentEntry) (rtt0 : ℚ) : LedgerResult :=
  let acked := ledger.filter (fun e => ackedEntry ack bits e)
  let remaining := ledger.filter (fun e => !ackedEntry ack bits e)
  let lost := remaining.filter (fun e => decide (threshold < now - e.sendTime))
  { kept := remaining.filter (fun e => !decide (threshold < now - e.sendTime))
    rtt := acked.foldl
      (fun r e => updateRtt r ((now : ℚ) - (e.sendTime : ℚ) - (tickDelay : ℚ))) rtt0
    ackedN := acked.length
    lostN := lost.length
    requeueReliable :=
      (lost.map (fun e => e.messages.filter (fun m => m.kind == MessageKind.Reliable))).foldr
        (· ++ ·) []
    requeueOrdered :=
      (lost.map (fun e => e.messages.filter (fun m => m.kind == MessageKind.Ordered))).foldr
        (· ++ ·) []
    lostBlocks := lost.map (fun e => serializeMessages e.messages) }

/-- Modelled from the spec: parse the datagram body into message
records; a truncated trailing record discards the rest (§4.1).
Fuel-structured (one unit per record; each record spends at least four
bytes, so the byte count suffices). -/
def parseRecordsA : Nat → List Nat → List Message
  | fuel + 1, k :: os :: oc :: len :: rest =>
    if len ≤ rest.length then
      let tail := parseRecordsA fuel (rest.drop len)
      match kindOfByte k with
      | some kind => ⟨kind, oc, os, rest.take len⟩ :: tail
      | none => tail
    else []
  | _, _ => []

/-- Parse a datagram body into its message records. -/
def parseRecords (bytes : List Nat) : List Message :=
  parseRecordsA bytes.length bytes

/-- Look up an association list by key. -/
def lookupA {α : Type} (l : List (Nat × α)) (k : Nat) : Option α :=
  match l with
  | [] => none
  | (k', v) :: rest => if k' = k then some v else lookupA rest k

/-- Replace the value stored under a key that is present; the key set
is unchanged. -/
def assocUpdate {α : Type} (l : List (Nat × α)) (k : Nat) (v : α) :
    List (Nat × α) :=
  l.map (fun p => if p.1 = k then (k, v) else p)

/-- Update-or-insert for the per-channel reassembly table. -/
def setChan (l : List (Nat × OrdChan)) (k : Nat) (v : OrdChan) :
    List (Nat × OrdChan) :=
  if k ∈ l.map Prod.fst then assocUpdate l k v else l ++ [(k, v)]

/-- Modelled from the spec: inbound dispatch of one parsed message —
Instant and Reliable go straight to the inbox, Ordered goes through its
channel's reassembly state (§4.4). -/
def Connection.dispatchOne (c : Connection) (m : Message) : Connection :=
  match m.kind with
  | .Instant => { c with inbox := c.inbox ++ [m.payload] }
  | .Reliable => { c with inbox := c.inbox ++ [m.payload] }
  | .Ordered =>
      let ch := (lookupA c.recvChannels m.orderChannel).getD ⟨0, []⟩
      let r := ordRecv ch m
      { c with
        recvChannels := setChan c.recvChannels m.orderChannel r.1,
        inbox := c.inbox ++ r.2.map Message.payload }

/-- Dispatch a parsed message block in order. -/
def Connection.dispatchMessages (c : Connection) (ms : List Message) : Connection :=
  ms.foldl Connection.dispatchOne c

/-- Modelled from the spec: the reserved close-marker body — sequence
byte 0, ack byte 128, payload `0x55 0x55 0x55 0x55` (§3, §6). -/
def isCloseMarker (packet : List Nat) : Bool :=
  packet.drop 8 == [0, 128, 85, 85, 85, 85]

/-- Modelled from the spec: processing of a validated non-marker
packet — record the remote sequence, acknowledge and age the ledger,
re-queue the lost Reliable/Ordered records at the head of their
queues, then dispatch the body's message records (§4.4–§4.5).
Returns the new state and the `packet_lost` hook invocations. -/
def Connection.receiveValid (c : Connection) (packet : List Nat)
    (now tickDelay : Nat) : Connection × List (List Nat) :=
  if isCloseMarker packet then ({ c with state := .Closed }, [])
  else
    let seq := packet.getD 8 0
    let ack := packet.getD 9 0
    let bits := packet.getD 10 0 * 2 ^ 24 + packet.getD 11 0 * 2 ^ 16 +
      packet.getD 12 0 * 2 ^ 8 + packet.getD 13 0
    let c1 := if seqMoreRecent seq c.remoteSeq then { c with remoteSeq := seq } else c
    let c2 := { c1 with remoteReceived := c1.remoteReceived ++ [seq] }
    let r := processLedger c2.config.packetDropThreshold now tickDelay ack bits
      c2.sentLedger c2.rtt
    let c3 := { c2 with
      sentLedger := r.kept
      rtt := r.rtt
      ackedCount := c2.ackedCount + r.ackedN
      lostCount := c2.lostCount + r.lostN
      reliableQ := r.requeueReliable ++ c2.reliableQ
      orderedQ := r.requeueOrdered ++ c2.orderedQ }
    (c3.dispatchMessages (parseRecords (packet.drop 14)), r.lostBlocks)

/-- Modelled from the spec: `receive(packet, tick_delay)` — drop short
or mistagged packets, drop anything in a terminal state, close on the
marker, establish on the first valid packet, then process normally
(§4.1, §4.7, `test_close_remote`). -/
def Connection.receivePacket (c : Connection) (packet : List Nat)
    (now tickDelay : Nat) : Connection × List (List Nat) :=
  if packet.length < 14 ∨ packet.take 4 ≠ c.config.protocolHeader then (c, [])
  else
    match c.state with
    | .Closed => (c, [])
    | .Lost => (c, [])
    | .Closing =>
        if isCloseMarker packet then ({ c with state := .Closed }, []) else (c, [])
    | .Connecting =>
        Connection.receiveValid { c with state := .Connected, lastRecvTime := now }
          packet now tickDelay
    | .Connected =>
        Connection.receiveValid { c with lastRecvTime := now } packet now tickDelay

/-- Modelled from the spec: `send_packet` — a Closing connection emits
the close marker until `connection_closing_threshold` has elapsed and
then goes Closed emitting nothing; terminal states emit nothing; an
open connection that has been silent past `connection_drop_threshold`
goes Lost; otherwise the header and the drained message block are
emitted, the block is ledgered, the local sequence increments modulo
256, and the undrained inbox is discarded (§4.3, §4.5, §4.7, §4.4
inbox semantics). -/
def Connection.sendPacket (c : Connection) (now : Nat) :
    Connection × Option (List Nat) :=
  match c.state with
  | .Closed => (c, none)
  | .Lost => (c, none)
  | .Closing =>
      if c.config.connectionClosingThreshold ≤ now - c.closeTime then
        ({ c with state := .Closed }, none)
      else
        (c, some (c.config.protocolHeader ++ idBytes c.id ++ [0, 128, 85, 85, 85, 85]))
  | _ =>
      if c.config.connectionDropThreshold < now - c.lastRecvTime then
        ({ c with state := .Lost }, none)
      else
        let r1 := drainList (c.config.packetMaxSize - 14) c.instantQ
        let r2 := drainList r1.left c.reliableQ
        let r3 := drainList r2.left c.orderedQ
        let msgs := r1.taken ++ r2.taken ++ r3.taken
        let header := c.config.protocolHeader ++ idBytes c.id ++
          [c.localSeq, c.remoteSeq] ++ u32Bytes (ackBitfield c.remoteSeq c.remoteReceived)
        ({ c with
            instantQ := r1.rest
            reliableQ := r2.rest
            orderedQ := r3.rest
            sentLedger := c.sentLedger ++ [⟨c.localSeq, now, msgs⟩]
            localSeq := (c.localSeq + 1) % 256
            inbox := [] },
         some (header ++ serializeMessages msgs))

/-- Modelled from the spec: `received()` yields the inbox contents in
arrival order (§4.4). -/
def Connection.received (c : Connection) : List (List Nat) := c.inbox

/-- Modelled from the spec: packet loss as the percentage of lost
packets among lost plus acknowledged ones (§4.6). -/
def Connection.packetLoss (c : Connection) : ℚ :=
  if c.lostCount + c.ackedCount = 0 then 0
  else 100 * (c.lostCount : ℚ) / ((c.lostCount : ℚ) + (c.ackedCount : ℚ))

/-- Iterate `send_packet` at time 0, keeping only the state. -/
def sendN (c : Connection) : Nat → Connection
  | 0 => c
  | n + 1 => ((sendN c n).sendPacket 0).1

/-- The cursor run `[s % 256, (s+1) % 256, …]` of length `k`. -/
def seqFrom (s : Nat) : Nat → List Nat
  | 0 => []
  | k + 1 => s % 256 :: seqFrom ((s + 1) % 256) k

/-! ## Server multiplexer (embedded from `src/server/server.rs`)

The server loop manipulates two hash maps keyed by connection
identifier and an internal tick counter.  Connections are abstracted
to the three observations the loop makes of them (`peer_addr`,
`open`, `congested`); the effects of `Connection::new`, `receive` and
`send` on that abstract state are passed in as functions, since the
loop's map discipline and congestion gating do not depend on them.
`none` models a panicking `unwrap`. -/

/-- The server loop's view of one connection (`server.rs` lines
95–135): its peer address, `open()` and `congested()`. -/
structure ServerConn where
  peerAddr : Nat
  isOpen : Bool
  congested : Bool

/-- Key list of an association list. -/
def keys {α : Type} (l : List (Nat × α)) : List Nat := l.map Prod.fst

/-- Remove a key whose presence `HashMap::remove(..).unwrap()`
requires (`server.rs` lines 98, 141–142). -/
def removeKey {α : Type} (l : List (Nat × α)) (k : Nat) :
    Option (List (Nat × α)) :=
  if k ∈ keys l then some (l.filter (fun p => decide (p.1 ≠ k))) else none

/-- Modelled from the spec: `Connection::id_from_packet` extracts the
identifier from bytes 4–7 of a packet with a valid header (§4.9); the
function itself lives in the absent `shared::Connection`. -/
def idFromPacket (tag : List Nat) (p : List Nat) : Option Nat :=
  if 14 ≤ p.length ∧ p.take 4 = tag then
    some (p.getD 4 0 * 2 ^ 24 + p.getD 5 0 * 2 ^ 16 + p.getD 6 0 * 2 ^ 8 + p.getD 7 0)
  else none

/-- One inbound datagram through the management maps (`server.rs`
lines 71–110): an unknown identifier inserts a fresh connection and
its address into both maps; a changed peer address rewrites the stored
address (`remove` then `insert` on a `HashMap`, i.e. an in-place value
update — the `remove` unwrap demands the key be present); then the
packet is fed to the connection. -/
def recvStep (tag : List Nat) (newC : Nat → ServerConn)
    (recvC : ServerConn → List Nat → ServerConn)
    (st : List (Nat × ServerConn) × List (Nat × Nat)) (pkt : Nat × List Nat) :
    Option (List (Nat × ServerConn) × List (Nat × Nat)) :=
  match idFromPacket tag pkt.2 with
  | none => some st
  | some i =>
    let st1 :=
      if i ∈ keys st.1 then st
      else (st.1 ++ [(i, newC pkt.1)], st.2 ++ [(i, pkt.1)])
    match lookupA st1.1 i with
    | none => none
    | some conn =>
      if pkt.1 = conn.peerAddr then
        some (assocUpdate st1.1 i (recvC conn pkt.2), st1.2)
      else
        match removeKey st1.2 i with
        | none => none
        | some addrs =>
          some (assocUpdate st1.1 i (recvC { conn with peerAddr := pkt.1 } pkt.2),
            addrs ++ [(i, pkt.1)])

/-- All inbound datagrams of one loop iteration (`server.rs`
lines 71–110). -/
def recvPhase (tag : List Nat) (newC : Nat → ServerConn)
    (recvC : ServerConn → List Nat → ServerConn)
    (pkts : List (Nat × List Nat))
    (st : List (Nat × ServerConn) × List (Nat × Nat)) :
    Option (List (Nat × ServerConn) × List (Nat × Nat)) :=
  match pkts with
  | [] => some st
  | pkt :: rest =>
    match recvStep tag newC recvC st pkt with
    | none => none
    | some st' => recvPhase tag newC recvC rest st'

/-- The outbound pass (`server.rs` lines 116–137): every connection is
sent to unless it is congested and the tick misses the congestion
divider; the peer address comes from `addresses.get(id).unwrap()`. -/
def sendPhase (divider tick : Nat) (sendC : ServerConn → Nat → ServerConn)
    (addrs : List (Nat × Nat)) :
    List (Nat × ServerConn) → Option (List (Nat × ServerConn))
  | [] => some []
  | (i, c) :: rest =>
    if c.congested = false ∨ tick % divider = 0 then
      match lookupA addrs i with
      | none => none
      | some a =>
        match sendPhase divider tick sendC addrs rest with
        | none => none
        | some r => some ((i, sendC c a) :: r)
    else
      match sendPhase divider tick sendC addrs rest with
      | none => none
      | some r => some ((i, c) :: r)

/-- Dropping the closed connections (`server.rs` lines 139–143): each
collected identifier is removed from both maps, both `remove` calls
unwrapping. -/
def dropPhase : List Nat → List (Nat × ServerConn) × List (Nat × Nat) →
    Option (List (Nat × ServerConn) × List (Nat × Nat))
  | [], st => some st
  | i :: rest, (cm, am) =>
    match removeKey cm i, removeKey am i with
    | some cm', some am' => dropPhase rest (cm', am')
    | _, _ => none

/-- The whole per-iteration state of the loop. -/
structure LoopState where
  conns : List (Nat × ServerConn)
  addrs : List (Nat × Nat)
  tick : Nat

/-- One iteration of the `while !self.closed` loop (`server.rs` lines
68–154): receive all datagrams, let the tick handler touch the
connections, send gated by congestion, drop the closed connections
from both maps, then advance the tick, wrapping to 0 when it reaches
the send rate. -/
def loopBody (tag : List Nat) (divider rate : Nat) (newC : Nat → ServerConn)
    (recvC : ServerConn → List Nat → ServerConn)
    (sendC : ServerConn → Nat → ServerConn)
    (tickH : List (Nat × ServerConn) → List (Nat × ServerConn))
    (pkts : List (Nat × List Nat)) (s : LoopState) : Option LoopState :=
  match recvPhase tag newC recvC pkts (s.conns, s.addrs) with
  | none => none
  | some (cm, am) =>
    match sendPhase divider s.tick sendC am (tickH cm) with
    | none => none
    | some cm2 =>
      let dropped := (cm2.filter (fun p => p.2.isOpen = false)).map Prod.fst
      match dropPhase dropped (cm2, am) with
      | none => none
      | some (cm3, am3) =>
        some ⟨cm3, am3, if s.tick + 1 = rate then 0 else s.tick + 1⟩

/-- The inter-tick sleep in milliseconds (`server.rs` line 46). -/
def tickDelay (sendRate : Nat) : Nat := 1000 / sendRate

/-! ## Helper lemmas -/

lemma seqFrom_succ (s k : Nat) :
    seqFrom s (k + 1) = s % 256 :: seqFrom ((s + 1) % 256) k := rfl

lemma seqFrom_arg_mod (s k : Nat) : seqFrom (s % 256) k = seqFrom s k := by
  cases k with
  | zero => rfl
  | succ k =>
      rw [seqFrom_succ, seqFrom_succ]
      have h1 : s % 256 % 256 = s % 256 := by omega
      have h2 : (s % 256 + 1) % 256 = (s + 1) % 256 := by omega
      rw [h1, h2]

lemma seqFrom_append (k1 : Nat) : ∀ s k2 : Nat,
    seqFrom s k1 ++ seqFrom (s + k1) k2 = seqFrom s (k1 + k2) := by
  induction k1 with
  | zero => intro s k2; simp [seqFrom]
  | succ k1 ih =>
      intro s k2
      have hk : k1 + 1 + k2 = (k1 + k2) + 1 := by omega
      rw [hk, seqFrom_succ, seqFrom_succ, List.cons_append]
      have hs : s + (k1 + 1) = (s + 1) + k1 := by omega
      rw [hs, seqFrom_arg_mod (s + 1) k1, seqFrom_arg_mod (s + 1) (k1 + k2),
        ih (s + 1) k2]

lemma drainBufA_spec (fuel : Nat) : ∀ (next : Nat) (buf : List Message),
    next < 256 →
    ∃ k, (drainBufA fuel next buf).1.map Message.orderSeq = seqFrom next k ∧
      (drainBufA fuel next buf).2.1 = (next + k) % 256 := by
  induction fuel with
  | zero =>
      intro next buf h
      exact ⟨0, rfl, by show next = (next + 0) % 256; omega⟩
  | succ fuel ih =>
      intro next buf h
      cases hfind : buf.find? (fun m => m.orderSeq == next) with
      | none =>
          refine ⟨0, ?_, ?_⟩
          · simp [drainBufA, hfind, seqFrom]
          · simp [drainBufA, hfind]
            omega
      | some m =>
          have hm : m.orderSeq = next := by
            have := List.find?_some hfind
            simpa using this
          obtain ⟨k, h1, h2⟩ := ih ((next + 1) % 256) (buf.erase m) (by omega)
          refine ⟨k + 1, ?_, ?_⟩
          · simp only [drainBufA, hfind, List.map_cons]
            rw [h1, hm, seqFrom_succ]
            have hnn : next % 256 = next := by omega
            rw [hnn]
          · simp only [drainBufA, hfind]
            rw [h2]
            omega

lemma ordRecv_spec (ch : OrdChan) (m : Message) (h : ch.next < 256) :
    ∃ k, (ordRecv ch m).2.map Message.orderSeq = seqFrom ch.next k ∧
      (ordRecv ch m).1.next = (ch.next + k) % 256 := by
  by_cases hd : (m.orderSeq == ch.next) = true
  · obtain ⟨k, h1, h2⟩ :=
      drainBufA_spec ch.buffer.length ((ch.next + 1) % 256) ch.buffer (by omega)
    refine ⟨k + 1, ?_, ?_⟩
    · simp only [ordRecv, hd, if_true, List.map_cons]
      rw [h1]
      have hm : m.orderSeq = ch.next := by simpa using hd
      rw [hm, seqFrom_succ]
      have hnn : ch.next % 256 = ch.next := by omega
      rw [hnn]
    · simp only [ordRecv, hd, if_true]
      rw [h2]
      omega
  · refine ⟨0, ?_, ?_⟩ <;> simp only [ordRecv, hd, Bool.false_eq_true, if_false]
    · split
      · rfl
      · split <;> rfl
    · split
      · show ch.next = (ch.next + 0) % 256
        omega
      · split
        · show ch.next = (ch.next + 0) % 256
          omega
        · show ch.next = (ch.next + 0) % 256
          omega

lemma ordRun_spec (ms : List Message) : ∀ ch : OrdChan, ch.next < 256 →
    ∃ k, (ordRun ch ms).2.map Message.orderSeq = seqFrom ch.next k ∧
      (ordRun ch ms).1.next = (ch.next + k) % 256 := by
  induction ms with
  | nil =>
      intro ch h
      exact ⟨0, rfl, by show ch.next = (ch.next + 0) % 256; omega⟩
  | cons m ms ih =>
      intro ch h
      obtain ⟨k1, h1, h2⟩ := ordRecv_spec ch m h
      have hlt : (ordRecv ch m).1.next < 256 := by rw [h2]; omega
      obtain ⟨k2, h3, h4⟩ := ih (ordRecv ch m).1 hlt
      refine ⟨k1 + k2, ?_, ?_⟩
      · show ((ordRecv ch m).2 ++ (ordRun (ordRecv ch m).1 ms).2).map Message.orderSeq =
          seqFrom ch.next (k1 + k2)
        rw [List.map_append, h1, h3, h2, seqFrom_arg_mod]
        exact seqFrom_append k1 ch.next k2
      · show (ordRun (ordRecv ch m).1 ms).1.next = (ch.next + (k1 + k2)) % 256
        rw [h4, h2]
        omega

lemma sendN_new_eq (cid : Nat) (n : Nat) :
    sendN (Connection.new Config.default cid) n =
      { Connection.new Config.default cid with
          localSeq := n % 256,
          sentLedger := (List.range n).map (fun i => ⟨i % 256, 0, []⟩) } := by
  induction n with
  | zero => rfl
  | succ n ih =>
      rw [sendN, ih]
      simp only [Connection.sendPacket, Connection.new, Config.default, drainList,
        List.range_succ, List.map_append, List.map_cons, List.map_nil]
      norm_num [Connection.mk.injEq]

lemma dispatchOne_state (c : Connection) (m : Message) :
    (c.dispatchOne m).state = c.state := by
  cases h : m.kind <;> simp [Connection.dispatchOne, h]

lemma dispatchMessages_state (ms : List Message) :
    ∀ c : Connection, (c.dispatchMessages ms).state = c.state := by
  induction ms with
  | nil => intro c; rfl
  | cons m ms ih =>
      intro c
      show (Connection.dispatchMessages (c.dispatchOne m) ms).state = c.state
      rw [ih, dispatchOne_state]

lemma receiveValid_state (c : Connection) (p : List Nat) (now td : Nat)
    (h : isCloseMarker p = false) :
    (c.receiveValid p now td).1.state = c.state := by
  simp only [Connection.receiveValid, h, Bool.false_eq_true, if_false]
  rw [dispatchMessages_state]
  split <;> rfl

lemma mem_foldr_append {α : Type} (L : List (List α)) (a : α) :
    a ∈ L.foldr (· ++ ·) [] ↔ ∃ l ∈ L, a ∈ l := by
  induction L with
  | nil => simp
  | cons l rest ih =>
      simp only [List.foldr_cons, List.mem_append, ih, List.mem_cons]
      constructor
      · rintro (h | ⟨l', hl', ha⟩)
        · exact ⟨l, Or.inl rfl, h⟩
        · exact ⟨l', Or.inr hl', ha⟩
      · rintro ⟨l', hl' | hl', ha⟩
        · exact Or.inl (hl' ▸ ha)
        · exact Or.inr ⟨l', hl', ha⟩

lemma keys_assocUpdate {α : Type} (l : List (Nat × α)) (k : Nat) (v : α) :
    keys (assocUpdate l k v) = keys l := by
  induction l with
  | nil => rfl
  | cons p rest ih =>
      show (if p.1 = k then (k, v) else p).1 :: keys (assocUpdate rest k v) =
        p.1 :: keys rest
      rw [ih]
      congr 1
      split
      · rename_i h
        exact h.symm
      · rfl

lemma lookupA_mem {α : Type} (l : List (Nat × α)) (k : Nat) (h : k ∈ keys l) :
    ∃ v, lookupA l k = some v := by
  induction l with
  | nil => exact absurd h (List.not_mem_nil k)
  | cons p rest ih =>
      obtain ⟨a, b⟩ := p
      by_cases hp : a = k
      · exact ⟨b, by simp [lookupA, hp]⟩
      · have hmem : k ∈ keys rest := by
          rcases List.mem_cons.mp h with h1 | h1
          · exact absurd h1.symm hp
          · exact h1
        obtain ⟨v, hv⟩ := ih hmem
        exact ⟨v, by simp [lookupA, hp, hv]⟩

lemma keys_append_single {α : Type} (l : List (Nat × α)) (i : Nat) (x : α) :
    keys (l ++ [(i, x)]) = keys l ++ [i] := by
  simp [keys]

lemma keys_filter_ne {α : Type} (l : List (Nat × α)) (k : Nat) :
    keys (l.filter (fun p => decide (p.1 ≠ k))) =
      (keys l).filter (fun j => decide (j ≠ k)) := by
  induction l with
  | nil => rfl
  | cons p rest ih =>
      by_cases h : p.1 = k
      · simp [List.filter_cons, h, keys] at ih ⊢
        exact ih
      · simp [List.filter_cons, h, keys] at ih ⊢
        exact ih

lemma removeKey_some {α : Type} (l : List (Nat × α)) (k : Nat) (h : k ∈ keys l) :
    removeKey l k = some (l.filter (fun p => decide (p.1 ≠ k))) := by
  simp [removeKey, h]

/-- Invariant carried through the server loop: both maps hold the same
identifiers and neither holds one twice. -/
def MapsSync (cm : List (Nat × ServerConn)) (am : List (Nat × Nat)) : Prop :=
  (∀ j, j ∈ keys cm ↔ j ∈ keys am) ∧ (keys cm).Nodup ∧ (keys am).Nodup

lemma mapsSync_addrUpdate {α : Type} (cm : List (Nat × α)) (am : List (Nat × Nat))
    (i a : Nat)
    (hiff : ∀ j, j ∈ keys cm ↔ j ∈ keys am) (_hnd1 : (keys cm).Nodup)
    (hnd2 : (keys am).Nodup) (hmem : i ∈ keys cm) :
    (∀ j, j ∈ keys cm ↔
        j ∈ keys (am.filter (fun p => decide (p.1 ≠ i)) ++ [(i, a)])) ∧
      (keys (am.filter (fun p => decide (p.1 ≠ i)) ++ [(i, a)])).Nodup := by
  constructor
  · intro j
    rw [keys_append_single, keys_filter_ne]
    constructor
    · intro hj
      by_cases hji : j = i
      · simp [hji]
      · exact List.mem_append_left _
          (List.mem_filter.mpr ⟨(hiff j).mp hj, by simp [hji]⟩)
    · intro hj
      rcases List.mem_append.mp hj with hj | hj
      · exact (hiff j).mpr (List.mem_filter.mp hj).1
      · have hji : j = i := by simpa using hj
        rw [hji]
        exact hmem
  · rw [keys_append_single, keys_filter_ne, List.nodup_append]
    refine ⟨hnd2.filter _, List.nodup_singleton i, ?_⟩
    intro j hj hj2
    have hji : j = i := by simpa using hj2
    have := (List.mem_filter.mp hj).2
    rw [hji] at this
    simp at this

lemma recvStep_inv (tag : List Nat) (newC : Nat → ServerConn)
    (recvC : ServerConn → List Nat → ServerConn)
    (st : List (Nat × ServerConn) × List (Nat × Nat)) (pkt : Nat × List Nat)
    (h : MapsSync st.1 st.2) :
    ∃ st', recvStep tag newC recvC st pkt = some st' ∧ MapsSync st'.1 st'.2 := by
  obtain ⟨hiff, hnd1, hnd2⟩ := h
  cases hid : idFromPacket tag pkt.2 with
  | none =>
      refine ⟨st, ?_, hiff, hnd1, hnd2⟩
      simp only [recvStep, hid]
  | some i =>
      by_cases hmem : i ∈ keys st.1
      · obtain ⟨conn, hconn⟩ := lookupA_mem st.1 i hmem
        by_cases haddr : pkt.1 = conn.peerAddr
        · refine ⟨(assocUpdate st.1 i (recvC conn pkt.2), st.2), ?_, ?_, ?_, hnd2⟩
          · simp only [recvStep, hid, hmem, if_true, hconn, haddr, if_pos]
          · intro j
            rw [keys_assocUpdate]
            exact hiff j
          · rw [keys_assocUpdate]
            exact hnd1
        · have hmem2 : i ∈ keys st.2 := (hiff i).mp hmem
          obtain ⟨hiff', hnd2'⟩ := mapsSync_addrUpdate st.1 st.2 i pkt.1 hiff hnd1 hnd2 hmem
          refine ⟨(assocUpdate st.1 i (recvC { conn with peerAddr := pkt.1 } pkt.2),
            st.2.filter (fun p => decide (p.1 ≠ i)) ++ [(i, pkt.1)]), ?_, ?_, ?_, hnd2'⟩
          · simp only [recvStep, hid, hmem, if_true, hconn, haddr, if_false,
              removeKey_some st.2 i hmem2]
          · intro j
            rw [keys_assocUpdate]
            exact hiff' j
          · rw [keys_assocUpdate]
            exact hnd1
      · have hmem2 : i ∉ keys st.2 := fun hh => hmem ((hiff i).mpr hh)
        have hmemnew : i ∈ keys (st.1 ++ [(i, newC pkt.1)]) := by
          rw [keys_append_single]
          simp
        obtain ⟨conn, hconn⟩ := lookupA_mem _ i hmemnew
        have hiffnew : ∀ j, j ∈ keys (st.1 ++ [(i, newC pkt.1)]) ↔
            j ∈ keys (st.2 ++ [(i, pkt.1)]) := by
          intro j
          rw [keys_append_single, keys_append_single]
          simp only [List.mem_append]
          constructor
          · rintro (hj | hj)
            · exact Or.inl ((hiff j).mp hj)
            · exact Or.inr hj
          · rintro (hj | hj)
            · exact Or.inl ((hiff j).mpr hj)
            · exact Or.inr hj
        have hndnew1 : (keys (st.1 ++ [(i, newC pkt.1)])).Nodup := by
          rw [keys_append_single, List.nodup_append]
          refine ⟨hnd1, List.nodup_singleton i, ?_⟩
          intro j hj hj2
          have hji : j = i := by simpa using hj2
          rw [hji] at hj
          exact hmem hj
        have hndnew2 : (keys (st.2 ++ [(i, pkt.1)])).Nodup := by
          rw [keys_append_single, List.nodup_append]
          refine ⟨hnd2, List.nodup_singleton i, ?_⟩
          intro j hj hj2
          have hji : j = i := by simpa using hj2
          rw [hji] at hj
          exact hmem2 hj
        by_cases haddr : pkt.1 = conn.peerAddr
        · refine ⟨(assocUpdate (st.1 ++ [(i, newC pkt.1)]) i (recvC conn pkt.2),
            st.2 ++ [(i, pkt.1)]), ?_, ?_, ?_, hndnew2⟩
          · simp only [recvStep, hid, hmem, if_false, hconn]
            rw [if_pos haddr]
          · intro j
            rw [keys_assocUpdate]
            exact hiffnew j
          · rw [keys_assocUpdate]
            exact hndnew1
        · have hmemnew2 : i ∈ keys (st.2 ++ [(i, pkt.1)]) := by
            rw [keys_append_single]
            simp
          obtain ⟨hiff', hnd2'⟩ := mapsSync_addrUpdate (st.1 ++ [(i, newC pkt.1)])
            (st.2 ++ [(i, pkt.1)]) i pkt.1 hiffnew hndnew1 hndnew2 hmemnew
          refine ⟨(assocUpdate (st.1 ++ [(i, newC pkt.1)]) i
              (recvC { conn with peerAddr := pkt.1 } pkt.2),
            (st.2 ++ [(i, pkt.1)]).filter (fun p => decide (p.1 ≠ i)) ++ [(i, pkt.1)]),
            ?_, ?_, ?_, hnd2'⟩
          · simp only [recvStep, hid, hmem, if_false, hconn, haddr,
              removeKey_some _ i hmemnew2]
          · intro j
            rw [keys_assocUpdate]
            exact hiff' j
          · rw [keys_assocUpdate]
            exact hndnew1

lemma recvPhase_inv (tag : List Nat) (newC : Nat → ServerConn)
    (recvC : ServerConn → List Nat → ServerConn) :
    ∀ (pkts : List (Nat × List Nat)) st, MapsSync st.1 st.2 →
      ∃ st', recvPhase tag newC recvC pkts st = some st' ∧ MapsSync st'.1 st'.2 := by
  intro pkts
  induction pkts with
  | nil =>
      intro st h
      exact ⟨st, rfl, h⟩
  | cons pkt rest ih =>
      intro st h
      obtain ⟨st1, hst1, hsync1⟩ := recvStep_inv tag newC recvC st pkt h
      obtain ⟨st2, hst2, hsync2⟩ := ih st1 hsync1
      refine ⟨st2, ?_, hsync2⟩
      simp only [recvPhase, hst1, hst2]

lemma sendPhase_some (divider tick : Nat) (sendC : ServerConn → Nat → ServerConn)
    (addrs : List (Nat × Nat)) :
    ∀ cm : List (Nat × ServerConn), (∀ j ∈ keys cm, j ∈ keys addrs) →
      ∃ cm', sendPhase divider tick sendC addrs cm = some cm' ∧ keys cm' = keys cm := by
  intro cm
  induction cm with
  | nil => exact fun _ => ⟨[], rfl, rfl⟩
  | cons p rest ih =>
      intro hcov
      obtain ⟨i, c⟩ := p
      have hmem : i ∈ keys addrs := hcov i (by simp [keys])
      obtain ⟨a, ha⟩ := lookupA_mem addrs i hmem
      obtain ⟨r, hr, hkr⟩ := ih (fun j hj => hcov j (by simp [keys] at hj ⊢; exact Or.inr hj))
      by_cases hg : c.congested = false ∨ tick % divider = 0
      · refine ⟨(i, sendC c a) :: r, ?_, ?_⟩
        · simp only [sendPhase]
          rw [if_pos hg]
          simp only [ha, hr]
        · simp [keys] at hkr ⊢
          exact hkr
      · refine ⟨(i, c) :: r, ?_, ?_⟩
        · simp only [sendPhase]
          rw [if_neg hg]
          simp only [hr]
        · simp [keys] at hkr ⊢
          exact hkr

lemma dropPhase_inv :
    ∀ (ids : List Nat) (cm : List (Nat × ServerConn)) (am : List (Nat × Nat)),
      MapsSync cm am → ids.Nodup → (∀ j ∈ ids, j ∈ keys cm) →
      ∃ cm' am', dropPhase ids (cm, am) = some (cm', am') ∧ MapsSync cm' am' := by
  intro ids
  induction ids with
  | nil =>
      intro cm am h _ _
      exact ⟨cm, am, rfl, h⟩
  | cons i rest ih =>
      intro cm am h hnd hcov
      obtain ⟨hiff, hnd1, hnd2⟩ := h
      have hm1 : i ∈ keys cm := hcov i (by simp)
      have hm2 : i ∈ keys am := (hiff i).mp hm1
      have hsync' : MapsSync (cm.filter (fun p => decide (p.1 ≠ i)))
          (am.filter (fun p => decide (p.1 ≠ i))) := by
        refine ⟨?_, ?_, ?_⟩
        · intro j
          rw [keys_filter_ne, keys_filter_ne, List.mem_filter, List.mem_filter]
          constructor
          · rintro ⟨hj, hj2⟩
            exact ⟨(hiff j).mp hj, hj2⟩
          · rintro ⟨hj, hj2⟩
            exact ⟨(hiff j).mpr hj, hj2⟩
        · rw [keys_filter_ne]
          exact hnd1.filter _
        · rw [keys_filter_ne]
          exact hnd2.filter _
      have hcov' : ∀ j ∈ rest, j ∈ keys (cm.filter (fun p => decide (p.1 ≠ i))) := by
        intro j hj
        rw [keys_filter_ne, List.mem_filter]
        refine ⟨hcov j (by simp [hj]), ?_⟩
        have hji : j ≠ i := by
          intro hh
          rw [hh] at hj
          exact (List.nodup_cons.mp hnd).1 hj
        simp [hji]
      obtain ⟨cm', am', hdrop, hsync''⟩ := ih _ _ hsync' (List.nodup_cons.mp hnd).2 hcov'
      refine ⟨cm', am', ?_, hsync''⟩
      simp only [dropPhase, removeKey_some cm i hm1, removeKey_some am i hm2, hdrop]

lemma dropped_cover (cm : List (Nat × ServerConn)) :
    ∀ j ∈ (cm.filter (fun p => p.2.isOpen = false)).map Prod.fst, j ∈ keys cm := by
  intro j hj
  obtain ⟨p, hp, hpj⟩ := List.mem_map.mp hj
  exact hpj ▸ List.mem_map.mpr ⟨p, (List.mem_filter.mp hp).1, rfl⟩

lemma dropped_nodup (cm : List (Nat × ServerConn)) (h : (keys cm).Nodup) :
    ((cm.filter (fun p => p.2.isOpen = false)).map Prod.fst).Nodup :=
  ((List.filter_sublist cm).map Prod.fst).nodup h

lemma sendPhase_cons (divider tick : Nat) (sendC : ServerConn → Nat → ServerConn)
    (addrs : List (Nat × Nat)) (i a : Nat) (c : ServerConn)
    (rest : List (Nat × ServerConn)) (ha : lookupA addrs i = some a) :
    sendPhase divider tick sendC addrs ((i, c) :: rest) =
      match sendPhase divider tick sendC addrs rest with
      | none => none
      | some r =>
          some ((i, if c.congested = false ∨ tick % divider = 0 then sendC c a else c)
            :: r) := by
  by_cases hg : c.congested = false ∨ tick % divider = 0
  · simp only [sendPhase]
    rw [if_pos hg, if_pos hg, ha]
  · simp only [sendPhase]
    rw [if_neg hg, if_neg hg]

/-! ## Scenario fixtures -/

/-- The close-marker datagram of `test_close_remote`. -/
def closeMarkerPacket : List Nat := [1, 2, 3, 4, 0, 0, 0, 0, 0, 128, 85, 85, 85, 85]

/-- Configuration of `test_packet_loss`: drop threshold lowered to 10 ms. -/
def lossCfg : Config := { packetDropThreshold := 10 }

/-- The connection of `test_packet_loss` with the three messages queued. -/
def lossConn : Connection :=
  (((Connection.new lossCfg 305419896).send .Instant
      [80, 97, 99, 107, 101, 116, 32, 73, 110, 115, 116, 97, 110, 116]).send .Reliable
      [80, 97, 99, 107, 101, 116, 32, 82, 101, 108, 105, 97, 98, 108, 101]).send .Ordered
      [80, 97, 99, 107, 101, 116, 32, 79, 114, 100, 101, 114, 101, 100]

/-- First outbound packet of the loss scenario, at time 0. -/
def lossSend1 : Connection × Option (List Nat) := lossConn.sendPacket 0

/-- The ack of a later sequence arriving at 20 ms, past the threshold. -/
def lossRecv1 : Connection × List (List Nat) :=
  lossSend1.1.receivePacket [1, 2, 3, 4, 0, 0, 0, 0, 0, 2, 0, 0, 0, 0] 20 0

/-- The retransmission that follows the loss. -/
def lossSend2 : Connection × Option (List Nat) := lossRecv1.1.sendPacket 20

/-- The ack of the retransmitted packet. -/
def lossRecv2 : Connection × List (List Nat) :=
  lossSend2.1.receivePacket [1, 2, 3, 4, 0, 0, 0, 0, 0, 1, 0, 0, 0, 0] 20 0

/-! ## Claims -/

/-- Claim C1: a fresh connection that has sent three packets and then
received valid packets with remote local sequences 17, 18, 19 and 27
emits, on the next `send_packet`, a header carrying `remote_ack = 27`
and the acknowledgment bitfield bytes `0, 0, 3, 128`; bit `i` of that
bitfield is set iff remote sequence `27 − 1 − i (mod 256)` was
received. -/
theorem C1_ack_bitfield :
    (((((((sendN (Connection.new Config.default 305419896) 3).receivePacket
          [1, 2, 3, 4, 0, 0, 0, 0, 17, 2, 0, 0, 0, 3] 0 0).1.receivePacket
          [1, 2, 3, 4, 0, 0, 0, 0, 18, 3, 0, 0, 0, 0] 0 0).1.receivePacket
          [1, 2, 3, 4, 0, 0, 0, 0, 19, 4, 0, 0, 0, 0] 0 0).1.receivePacket
          [1, 2, 3, 4, 0, 0, 0, 0, 27, 4, 0, 0, 0, 0] 0 0).1.sendPacket 0).2 =
        some ([1, 2, 3, 4] ++ idBytes 305419896 ++ [3, 27, 0, 0, 3, 128])) ∧
    u32Bytes (ackBitfield 27 [17, 18, 19, 27]) = [0, 0, 3, 128] ∧
    (∀ i, i < 32 →
      (ackBitfield 27 [17, 18, 19, 27]).testBit i =
        decide ((27 + 255 - i) % 256 ∈ ([17, 18, 19, 27] : List Nat))) :=
  ⟨by decide, by decide, by decide⟩

/-- Claim C1 witness: bit 7 of the bitfield acknowledges sequence 19. -/
theorem C1_ack_bitfield_witness :
    (ackBitfield 27 [17, 18, 19, 27]).testBit 7 =
      decide ((27 + 255 - 7) % 256 ∈ ([17, 18, 19, 27] : List Nat)) :=
  C1_ack_bitfield.2.2 7 (by decide)

/-- Claim C2: a ledger entry older than `packet_drop_threshold` that an
incoming packet does not acknowledge is marked lost — its serialized
block is handed to the `packet_lost` hook, its Reliable and Ordered
messages are re-queued (with their original order metadata) while it
leaves the ledger, re-queues hold nothing but Reliable respectively
Ordered messages, and a packet acknowledging nothing leaves the RTT
estimate untouched.  In the `test_packet_loss` scenario the lost
Reliable and Ordered messages appear in the next outbound packet and
the Instant one is discarded, the hook fires once with the serialized
block, RTT stays 0, and `packet_loss()` reads 100 after the loss and
50 after one subsequent acknowledgment. -/
theorem C2_packet_loss :
    (∀ (threshold now tickDelay ack bits : Nat) (ledger : List SentEntry) (rtt0 : ℚ)
        (e : SentEntry), e ∈ ledger → ackedEntry ack bits e = false →
        threshold < now - e.sendTime →
        (serializeMessages e.messages ∈
            (processLedger threshold now tickDelay ack bits ledger rtt0).lostBlocks ∧
          (∀ m ∈ e.messages, m.kind = MessageKind.Reliable →
            m ∈ (processLedger threshold now tickDelay ack bits ledger
              rtt0).requeueReliable) ∧
          (∀ m ∈ e.messages, m.kind = MessageKind.Ordered →
            m ∈ (processLedger threshold now tickDelay ack bits ledger
              rtt0).requeueOrdered) ∧
          e ∉ (processLedger threshold now tickDelay ack bits ledger rtt0).kept)) ∧
    (∀ (threshold now tickDelay ack bits : Nat) (ledger : List SentEntry) (rtt0 : ℚ),
        (∀ m ∈ (processLedger threshold now tickDelay ack bits ledger
            rtt0).requeueReliable, m.kind = MessageKind.Reliable) ∧
        (∀ m ∈ (processLedger threshold now tickDelay ack bits ledger
            rtt0).requeueOrdered, m.kind = MessageKind.Ordered)) ∧
    (∀ (threshold now tickDelay ack bits : Nat) (ledger : List SentEntry) (rtt0 : ℚ),
        (∀ e ∈ ledger, ackedEntry ack bits e = false) →
        (processLedger threshold now tickDelay ack bits ledger rtt0).rtt = rtt0) ∧
    (lossSend1.2 = some ([1, 2, 3, 4] ++ idBytes 305419896 ++ [0, 0, 0, 0, 0, 0] ++
        ([0, 0, 0, 14, 80, 97, 99, 107, 101, 116, 32, 73, 110, 115, 116, 97, 110, 116] ++
         [1, 0, 0, 15, 80, 97, 99, 107, 101, 116, 32, 82, 101, 108, 105, 97, 98, 108, 101] ++
         [2, 0, 0, 14, 80, 97, 99, 107, 101, 116, 32, 79, 114, 100, 101, 114, 101, 100])) ∧
      lossRecv1.2 =
        [[0, 0, 0, 14, 80, 97, 99, 107, 101, 116, 32, 73, 110, 115, 116, 97, 110, 116] ++
         [1, 0, 0, 15, 80, 97, 99, 107, 101, 116, 32, 82, 101, 108, 105, 97, 98, 108, 101] ++
         [2, 0, 0, 14, 80, 97, 99, 107, 101, 116, 32, 79, 114, 100, 101, 114, 101, 100]] ∧
      lossRecv1.1.rtt = 0 ∧
      lossRecv1.1.packetLoss = 100 ∧
      lossSend2.2 = some ([1, 2, 3, 4] ++ idBytes 305419896 ++ [1, 0, 0, 0, 0, 0] ++
        ([1, 0, 0, 15, 80, 97, 99, 107, 101, 116, 32, 82, 101, 108, 105, 97, 98, 108, 101] ++
         [2, 0, 0, 14, 80, 97, 99, 107, 101, 116, 32, 79, 114, 100, 101, 114, 101, 100])) ∧
      lossRecv2.1.packetLoss = 50) := by
  refine ⟨?_, ?_, ?_, ?_⟩
  · intro threshold now tickDelay ack bits ledger rtt0 e he hacked hold
    have hrem : e ∈ ledger.filter (fun e => !ackedEntry ack bits e) :=
      List.mem_filter.mpr ⟨he, by simp [hacked]⟩
    have hlost : e ∈ (ledger.filter (fun e => !ackedEntry ack bits e)).filter
        (fun e => decide (threshold < now - e.sendTime)) :=
      List.mem_filter.mpr ⟨hrem, by simpa using hold⟩
    refine ⟨?_, ?_, ?_, ?_⟩
    · exact List.mem_map.mpr ⟨e, hlost, rfl⟩
    · intro m hm hk
      refine (mem_foldr_append _ m).mpr ⟨e.messages.filter
        (fun m => m.kind == MessageKind.Reliable), List.mem_map.mpr ⟨e, hlost, rfl⟩, ?_⟩
      exact List.mem_filter.mpr ⟨hm, by simp [hk]⟩
    · intro m hm hk
      refine (mem_foldr_append _ m).mpr ⟨e.messages.filter
        (fun m => m.kind == MessageKind.Ordered), List.mem_map.mpr ⟨e, hlost, rfl⟩, ?_⟩
      exact List.mem_filter.mpr ⟨hm, by simp [hk]⟩
    · intro hkept
      have := (List.mem_filter.mp hkept).2
      simp at this
      omega
  · intro threshold now tickDelay ack bits ledger rtt0
    constructor
    · intro m hm
      obtain ⟨l, hl, hml⟩ := (mem_foldr_append _ m).mp hm
      obtain ⟨e, _, rfl⟩ := List.mem_map.mp hl
      have := (List.mem_filter.mp hml).2
      simpa using this
    · intro m hm
      obtain ⟨l, hl, hml⟩ := (mem_foldr_append _ m).mp hm
      obtain ⟨e, _, rfl⟩ := List.mem_map.mp hl
      have := (List.mem_filter.mp hml).2
      simpa using this
  · intro threshold now tickDelay ack bits ledger rtt0 hnone
    have hnil : ledger.filter (fun e => ackedEntry ack bits e) = [] := by
      rw [List.filter_eq_nil_iff]
      intro e he
      simp [hnone e he]
    show (ledger.filter (fun e => ackedEntry ack bits e)).foldl _ rtt0 = rtt0
    rw [hnil]
    rfl
  · have hl1 : lossRecv1.1.lostCount = 1 := by decide
    have ha1 : lossRecv1.1.ackedCount = 0 := by decide
    have hl2 : lossRecv2.1.lostCount = 1 := by decide
    have ha2 : lossRecv2.1.ackedCount = 1 := by decide
    refine ⟨by decide, by decide, by decide, ?_, by decide, ?_⟩
    · rw [Connection.packetLoss, hl1, ha1]
      norm_num
    · rw [Connection.packetLoss, hl2, ha2]
      norm_num

/-- Claim C2 witness: a one-entry ledger aged past a threshold of 1 ms
and not acknowledged reports its serialized block to the hook, and an
all-unacknowledged packet leaves the RTT estimate unchanged. -/
theorem C2_packet_loss_witness :
    serializeMessages [⟨MessageKind.Reliable, 0, 0, [9]⟩] ∈
        (processLedger 1 3 0 5 0
          [⟨0, 0, [⟨MessageKind.Reliable, 0, 0, [9]⟩]⟩] 0).lostBlocks ∧
      (processLedger 1 3 0 5 0 [⟨0, 0, [⟨MessageKind.Reliable, 0, 0, [9]⟩]⟩] 0).rtt = 0 :=
  ⟨(C2_packet_loss.1 1 3 0 5 0 [⟨0, 0, [⟨MessageKind.Reliable, 0, 0, [9]⟩]⟩] 0
      ⟨0, 0, [⟨MessageKind.Reliable, 0, 0, [9]⟩]⟩ (by decide) (by decide) (by decide)).1,
    C2_packet_loss.2.2.1 1 3 0 5 0 [⟨0, 0, [⟨MessageKind.Reliable, 0, 0, [9]⟩]⟩] 0
      (by decide)⟩

/-- Claim C3: after `close()` the state is Closing and `open()` is
still true; while `connection_closing_threshold` has not elapsed every
`send_packet` emits exactly the 14-byte close marker; once it has
elapsed, `send_packet` emits nothing, the state is Closed, `open()` is
false, and a Closed connection never emits again. -/
theorem C3_close_local (cid t u : Nat) :
    (((Connection.new Config.default cid).close t).state = ConnectionState.Closing ∧
      ((Connection.new Config.default cid).close t).isOpen = true) ∧
    (u < t + Config.default.connectionClosingThreshold →
      ((((Connection.new Config.default cid).close t).sendPacket u).2 =
          some ([1, 2, 3, 4] ++ idBytes cid ++ [0, 128, 85, 85, 85, 85]) ∧
        ((((Connection.new Config.default cid).close t).sendPacket u).1.state =
          ConnectionState.Closing))) ∧
    (t + Config.default.connectionClosingThreshold ≤ u →
      ((((Connection.new Config.default cid).close t).sendPacket u).2 = none ∧
        (((Connection.new Config.default cid).close t).sendPacket u).1.state =
          ConnectionState.Closed ∧
        (((Connection.new Config.default cid).close t).sendPacket u).1.isOpen = false)) ∧
    (∀ c : Connection, c.state = ConnectionState.Closed → (c.sendPacket u).2 = none) := by
  have hc1 : (Connection.new Config.default cid).close t =
      { Connection.new Config.default cid with state := .Closing, closeTime := t } := rfl
  have hth : Config.default.connectionClosingThreshold = 100 := rfl
  refine ⟨⟨rfl, rfl⟩, ?_, ?_, ?_⟩
  · intro h
    rw [hc1]
    simp only [Connection.sendPacket]
    rw [if_neg (by
      have h2 : (Connection.new Config.default cid).config.connectionClosingThreshold =
        100 := rfl
      rw [hth] at h
      rw [h2]
      omega)]
    exact ⟨rfl, rfl⟩
  · intro h
    rw [hc1]
    simp only [Connection.sendPacket]
    rw [if_pos (by
      have h2 : (Connection.new Config.default cid).config.connectionClosingThreshold =
        100 := rfl
      rw [hth] at h
      rw [h2]
      omega)]
    exact ⟨rfl, rfl, rfl⟩
  · intro c hc
    obtain ⟨cfg, i, st, ls, rs, rr, sl, iq, rq, oq, oc, rc, ib, rt, lc, ac, ct, lt⟩ := c
    simp only at hc
    subst hc
    rfl

/-- Claim C3 witness: at 50 ms the marker is still emitted; at 100 ms
nothing is emitted and the connection reads closed. -/
theorem C3_close_local_witness :
    (((Connection.new Config.default 5).close 0).sendPacket 50).2 =
        some ([1, 2, 3, 4] ++ idBytes 5 ++ [0, 128, 85, 85, 85, 85]) ∧
      (((Connection.new Config.default 5).close 0).sendPacket 100).2 = none ∧
      (((Connection.new Config.default 5).close 0).sendPacket 100).1.isOpen = false :=
  ⟨((C3_close_local 5 0 50).2.1 (by decide)).1,
    ((C3_close_local 5 0 100).2.2.1 (by decide)).1,
    ((C3_close_local 5 0 100).2.2.1 (by decide)).2.2⟩

/-- Claim C4: on a Connecting connection any packet with a valid
14-byte header that is not the close marker — a zero-payload header
included — moves the state to Connected; on a Connected connection the
close marker moves the state to Closed and `open()` becomes false. -/
theorem C4_close_remote :
    (∀ (cid : Nat) (p : List Nat) (now td : Nat),
        14 ≤ p.length → p.take 4 = [1, 2, 3, 4] → isCloseMarker p = false →
        ((Connection.new Config.default cid).receivePacket p now td).1.state =
          ConnectionState.Connected) ∧
    (∀ (c : Connection) (now td : Nat),
        c.state = ConnectionState.Connected → c.config.protocolHeader = [1, 2, 3, 4] →
        ((c.receivePacket closeMarkerPacket now td).1.state = ConnectionState.Closed ∧
          (c.receivePacket closeMarkerPacket now td).1.isOpen = false)) := by
  constructor
  · intro cid p now td hlen htag hmark
    have hcfg : (Connection.new Config.default cid).config.protocolHeader =
      [1, 2, 3, 4] := rfl
    simp only [Connection.receivePacket, hcfg, htag]
    rw [if_neg (by simp [htag]; omega)]
    show (Connection.receiveValid _ p now td).1.state = _
    rw [receiveValid_state _ _ _ _ hmark]
  · intro c now td hst hcfg
    obtain ⟨cfg, i, st, ls, rs, rr, sl, iq, rq, oq, oc, rc, ib, rt, lc, ac, ct, lt⟩ := c
    simp only at hst hcfg
    subst hst
    simp only [Connection.receivePacket, hcfg]
    rw [if_neg (by simp [closeMarkerPacket])]
    exact ⟨rfl, rfl⟩

/-- Claim C4 witness: a header-only packet establishes the connection;
the close marker then closes it. -/
theorem C4_close_remote_witness :
    ((Connection.new Config.default 5).receivePacket
        [1, 2, 3, 4, 0, 0, 0, 0, 0, 0, 0, 0, 0, 0] 0 0).1.state =
      ConnectionState.Connected ∧
    ((((Connection.new Config.default 5).receivePacket
        [1, 2, 3, 4, 0, 0, 0, 0, 0, 0, 0, 0, 0, 0] 0 0).1.receivePacket
        closeMarkerPacket 0 0).1.state = ConnectionState.Closed ∧
      (((Connection.new Config.default 5).receivePacket
        [1, 2, 3, 4, 0, 0, 0, 0, 0, 0, 0, 0, 0, 0] 0 0).1.receivePacket
        closeMarkerPacket 0 0).1.isOpen = false) :=
  ⟨C4_close_remote.1 5 [1, 2, 3, 4, 0, 0, 0, 0, 0, 0, 0, 0, 0, 0] 0 0
      (by decide) (by decide) (by decide),
    C4_close_remote.2 _ 0 0 (by decide) (by decide)⟩

/-- Claim C5 counterexample: the claim reads the record prefix as
`{kind, order_channel, order_seq, length}`; for the second Ordered
message ("World", channel 0, order_seq 1) that layout yields
`2, 0, 1, 5, …`, which differs from the record `2, 1, 0, 5, …` that
the claim itself lists and the code emits — the prefix actually
carries `order_seq` before `order_channel`. -/
theorem C5_field_order_counterexample :
    serializeMessageSpecOrder ⟨MessageKind.Ordered, 0, 1, [87, 111, 114, 108, 100]⟩ =
        [2, 0, 1, 5, 87, 111, 114, 108, 100] ∧
      serializeMessage ⟨MessageKind.Ordered, 0, 1, [87, 111, 114, 108, 100]⟩ =
        [2, 1, 0, 5, 87, 111, 114, 108, 100] ∧
      serializeMessageSpecOrder ⟨MessageKind.Ordered, 0, 1, [87, 111, 114, 108, 100]⟩ ≠
        serializeMessage ⟨MessageKind.Ordered, 0, 1, [87, 111, 114, 108, 100]⟩ := by
  decide

/-- Claim C5 (amended): queueing Instant "Foo", Instant "Bar",
Reliable "Test", Ordered "Hello", Ordered "World" and sending one
packet yields exactly the claimed records after the 14-byte header —
drained in priority order Instant, Reliable, Ordered, each message
serialized as `{kind, order_seq, order_channel, length}` plus payload,
the order_seq counter incrementing per Ordered message on channel 0. -/
theorem C5_message_serialization :
    (((((((Connection.new Config.default 305419896).send .Instant
          [70, 111, 111]).send .Instant [66, 97, 114]).send .Reliable
          [84, 101, 115, 116]).send .Ordered [72, 101, 108, 108, 111]).send .Ordered
          [87, 111, 114, 108, 100]).sendPacket 0).2 =
      some ([1, 2, 3, 4] ++ idBytes 305419896 ++ [0, 0, 0, 0, 0, 0] ++
        ([0, 0, 0, 3, 70, 111, 111] ++ [0, 0, 0, 3, 66, 97, 114] ++
         [1, 0, 0, 4, 84, 101, 115, 116] ++ [2, 0, 0, 5, 72, 101, 108, 108, 111] ++
         [2, 1, 0, 5, 87, 111, 114, 108, 100])) := by
  decide

/-- Claim C6: messages fed through one ordered channel in any wire
order are delivered with consecutive order sequences starting at the
channel cursor (hence in increasing order_seq order modulo 256), the
cursor advancing with each delivery; concretely, receiving Ordered
"World" (order_seq 1) before Ordered "Hello" (order_seq 0) still
exposes "Hello" before "World" in `received()`. -/
theorem C6_ordered_delivery :
    (∀ (ch : OrdChan) (ms : List Message), ch.next < 256 →
      ∃ k, (ordRun ch ms).2.map Message.orderSeq = seqFrom ch.next k ∧
        (ordRun ch ms).1.next = (ch.next + k) % 256) ∧
    ((Connection.new Config.default 305419896).receivePacket
        [1, 2, 3, 4, 0, 0, 0, 0, 0, 0, 0, 0, 0, 0,
         0, 0, 0, 3, 70, 111, 111, 0, 0, 0, 3, 66, 97, 114,
         1, 0, 0, 4, 84, 101, 115, 116,
         2, 1, 0, 5, 87, 111, 114, 108, 100,
         2, 0, 0, 5, 72, 101, 108, 108, 111] 0 0).1.received =
      [[70, 111, 111], [66, 97, 114], [84, 101, 115, 116],
       [72, 101, 108, 108, 111], [87, 111, 114, 108, 100]] :=
  ⟨fun ch ms h => ordRun_spec ms ch h, by decide⟩

/-- Claim C6 witness: one channel receiving order sequences 1 then 0
delivers the run `0, 1` from cursor 0. -/
theorem C6_ordered_delivery_witness :
    ∃ k, (ordRun ⟨0, []⟩ [⟨MessageKind.Ordered, 0, 1, [1]⟩,
        ⟨MessageKind.Ordered, 0, 0, [2]⟩]).2.map Message.orderSeq = seqFrom 0 k ∧
      (ordRun ⟨0, []⟩ [⟨MessageKind.Ordered, 0, 1, [1]⟩,
        ⟨MessageKind.Ordered, 0, 0, [2]⟩]).1.next = (0 + k) % 256 :=
  C6_ordered_delivery.1 ⟨0, []⟩
    [⟨MessageKind.Ordered, 0, 1, [1]⟩, ⟨MessageKind.Ordered, 0, 0, [2]⟩] (by decide)

/-- Claim C7: the n-th `send_packet` of a fresh connection emits local
sequence `n mod 256` (so N calls emit `0, 1, …, (N−1) mod 256` and the
257th call emits 0 again), together with the fresh header remainder. -/
theorem C7_sequence_wrap (cid n : Nat) :
    ((sendN (Connection.new Config.default cid) n).sendPacket 0).2 =
      some ([1, 2, 3, 4] ++ idBytes cid ++ [n % 256, 0, 0, 0, 0, 0]) := by
  rw [sendN_new_eq]
  simp only [Connection.sendPacket, Connection.new, Config.default, drainList]
  norm_num
  rfl

/-- Claim C8: `rtt()` is 0 on a fresh connection; the update rule
`rtt ← rtt + 0.1·(sample − rtt)` puts the estimate after a first
acknowledgment with sample `T ≥ 0` inside `[0.09·T, 0.11·T]`; any
acknowledgment whose sample is below the current estimate strictly
decreases it (so a run of such samples decreases it monotonically);
and acknowledging a fresh connection's first packet after `T`
milliseconds leaves `rtt = T / 10`. -/
theorem C8_rtt_smoothing :
    ((Connection.new Config.default 305419896).rtt = 0) ∧
    (∀ T : ℚ, 0 ≤ T → 9 / 100 * T ≤ updateRtt 0 T ∧ updateRtt 0 T ≤ 11 / 100 * T) ∧
    (∀ r s : ℚ, s < r → updateRtt r s < r) ∧
    (∀ T : Nat,
      (((Connection.new Config.default 305419896).sendPacket 0).1.receivePacket
          [1, 2, 3, 4, 0, 0, 0, 0, 0, 0, 0, 0, 0, 0] T 0).1.rtt = (T : ℚ) / 10) := by
  refine ⟨rfl, ?_, ?_, ?_⟩
  · intro T hT
    constructor <;> (simp only [updateRtt]; linarith)
  · intro r s h
    simp only [updateRtt]
    linarith
  · intro T
    have hstep :
        (((Connection.new Config.default 305419896).sendPacket 0).1.receivePacket
            [1, 2, 3, 4, 0, 0, 0, 0, 0, 0, 0, 0, 0, 0] T 0).1.rtt =
          updateRtt 0 ((T : ℚ) - ((0 : Nat) : ℚ) - ((0 : Nat) : ℚ)) := by
      with_unfolding_all rfl
    rw [hstep]
    simp [updateRtt]

/-- Claim C8 witness: a 500 ms first sample lands at 50, inside the
required band, and a sample of 5 below an estimate of 10 decreases the
estimate. -/
theorem C8_rtt_smoothing_witness :
    ((9 : ℚ) / 100 * 500 ≤ updateRtt 0 500 ∧ updateRtt 0 500 ≤ (11 : ℚ) / 100 * 500) ∧
      updateRtt 10 5 < 10 :=
  ⟨C8_rtt_smoothing.2.1 500 (by norm_num), C8_rtt_smoothing.2.2.1 10 5 (by norm_num)⟩

/-- Claim C9: in the server loop a connection is sent to exactly when
it is not congested or the tick hits the congestion divider — for a
congested connection the gate holds iff `tick % divider = 0`, for a
non-congested one it always holds — and every completed loop
iteration advances the tick by one, wrapping to 0 on reaching the
send rate. -/
theorem C9_congestion_gating :
    (∀ (divider tick : Nat) (sendC : ServerConn → Nat → ServerConn)
        (addrs : List (Nat × Nat)) (i a : Nat) (c : ServerConn)
        (rest : List (Nat × ServerConn)), lookupA addrs i = some a →
      sendPhase divider tick sendC addrs ((i, c) :: rest) =
        match sendPhase divider tick sendC addrs rest with
        | none => none
        | some r =>
            some ((i, if c.congested = false ∨ tick % divider = 0 then sendC c a else c)
              :: r)) ∧
    (∀ (c : ServerConn) (tick divider : Nat), c.congested = true →
      ((c.congested = false ∨ tick % divider = 0) ↔ tick % divider = 0)) ∧
    (∀ (c : ServerConn) (tick divider : Nat), c.congested = false →
      (c.congested = false ∨ tick % divider = 0)) ∧
    (∀ (tag : List Nat) (divider rate : Nat) (newC : Nat → ServerConn)
        (recvC : ServerConn → List Nat → ServerConn)
        (sendC : ServerConn → Nat → ServerConn)
        (tickH : List (Nat × ServerConn) → List (Nat × ServerConn))
        (pkts : List (Nat × List Nat)) (s s' : LoopState),
      loopBody tag divider rate newC recvC sendC tickH pkts s = some s' →
      s'.tick = if s.tick + 1 = rate then 0 else s.tick + 1) := by
  refine ⟨?_, ?_, ?_, ?_⟩
  · exact fun d t sc ad i a c r ha => sendPhase_cons d t sc ad i a c r ha
  · intro c tick divider h
    rw [h]
    simp
  · intro c tick divider h
    exact Or.inl h
  · intro tag divider rate newC recvC sendC tickH pkts s s' h
    cases hr : recvPhase tag newC recvC pkts (s.conns, s.addrs) with
    | none =>
        simp only [loopBody, hr] at h
        exact Option.noConfusion h
    | some st1 =>
        obtain ⟨cm, am⟩ := st1
        cases hs : sendPhase divider s.tick sendC am (tickH cm) with
        | none =>
            simp only [loopBody, hr, hs] at h
            exact Option.noConfusion h
        | some cm2 =>
            cases hd : dropPhase ((cm2.filter (fun p => p.2.isOpen = false)).map Prod.fst)
                (cm2, am) with
            | none =>
                simp only [loopBody, hr, hs, hd] at h
                exact Option.noConfusion h
            | some st3 =>
                obtain ⟨cm3, am3⟩ := st3
                simp only [loopBody, hr, hs, hd] at h
                rw [← Option.some.inj h]

/-- Claim C9 witness: a congested connection on an odd tick with
divider 2 is skipped, and an empty iteration advances the tick from 0
to 1 under a send rate of 30. -/
theorem C9_congestion_gating_witness :
    (sendPhase 2 1 (fun c _ => c) [(5, 9)] [(5, ⟨9, true, true⟩)] =
      match sendPhase 2 1 (fun (c : ServerConn) (_ : Nat) => c) [(5, 9)]
          ([] : List (Nat × ServerConn)) with
      | none => none
      | some r =>
          some ((5, if (⟨9, true, true⟩ : ServerConn).congested = false ∨ 1 % 2 = 0
            then (fun (c : ServerConn) (_ : Nat) => c) ⟨9, true, true⟩ 9
            else ⟨9, true, true⟩) :: r)) ∧
      (LoopState.mk [] [] 1).tick = if (LoopState.mk [] [] 0).tick + 1 = 30 then 0
        else (LoopState.mk [] [] 0).tick + 1 :=
  ⟨C9_congestion_gating.1 2 1 (fun c _ => c) [(5, 9)] 5 9 ⟨9, true, true⟩ [] rfl,
    C9_congestion_gating.2.2.2 [1, 2, 3, 4] 2 30 (fun a => ⟨a, true, false⟩)
      (fun c _ => c) (fun c _ => c) (fun cm => cm) [] ⟨[], [], 0⟩ ⟨[], [], 1⟩ rfl⟩

/-- Claim C10: if at the start of a loop iteration the connections map
and the addresses map hold exactly the same identifiers (each without
duplicates) and the tick handler preserves the key set, then the whole
iteration completes without any `unwrap` panicking — every `none`
models a panic — and re-establishes the invariant: identifiers enter
both maps together, a peer-address change rewrites only the stored
address, and a closed connection leaves both maps together. -/
theorem C10_map_sync (tag : List Nat) (divider rate : Nat) (newC : Nat → ServerConn)
    (recvC : ServerConn → List Nat → ServerConn)
    (sendC : ServerConn → Nat → ServerConn)
    (tickH : List (Nat × ServerConn) → List (Nat × ServerConn))
    (pkts : List (Nat × List Nat)) (s : LoopState)
    (hsync : MapsSync s.conns s.addrs)
    (htick : ∀ cm, keys (tickH cm) = keys cm) :
    ∃ s', loopBody tag divider rate newC recvC sendC tickH pkts s = some s' ∧
      MapsSync s'.conns s'.addrs := by
  obtain ⟨st1, hrecv, hsync1⟩ := recvPhase_inv tag newC recvC pkts (s.conns, s.addrs) hsync
  obtain ⟨cm, am⟩ := st1
  obtain ⟨hiff1, hnd11, hnd12⟩ := hsync1
  have hsynct : MapsSync (tickH cm) am := by
    refine ⟨?_, ?_, hnd12⟩
    · intro j
      rw [htick]
      exact hiff1 j
    · rw [htick]
      exact hnd11
  obtain ⟨cm2, hsend, hk2⟩ := sendPhase_some divider s.tick sendC am (tickH cm)
    (fun j hj => (hsynct.1 j).mp hj)
  have hsync2 : MapsSync cm2 am := by
    refine ⟨?_, ?_, hnd12⟩
    · intro j
      rw [hk2]
      exact hsynct.1 j
    · rw [hk2]
      exact hsynct.2.1
  obtain ⟨cm3, am3, hdrop, hsync3⟩ := dropPhase_inv
    ((cm2.filter (fun p => p.2.isOpen = false)).map Prod.fst) cm2 am hsync2
    (dropped_nodup cm2 hsync2.2.1) (dropped_cover cm2)
  refine ⟨⟨cm3, am3, if s.tick + 1 = rate then 0 else s.tick + 1⟩, ?_, hsync3⟩
  simp only [loopBody, hrecv, hsend, hdrop]

/-- Claim C10 witness: an iteration over a one-connection state whose
packet inserts a second identifier completes and keeps the maps in
sync. -/
theorem C10_map_sync_witness :
    ∃ s', loopBody [1, 2, 3, 4] 2 30 (fun a => ⟨a, true, false⟩) (fun c _ => c)
        (fun c _ => c) (fun cm => cm)
        [(9, [1, 2, 3, 4, 0, 0, 0, 7, 0, 0, 0, 0, 0, 0])]
        ⟨[(5, ⟨8, true, false⟩)], [(5, 8)], 0⟩ = some s' ∧
      MapsSync s'.conns s'.addrs :=
  C10_map_sync [1, 2, 3, 4] 2 30 (fun a => ⟨a, true, false⟩) (fun c _ => c)
    (fun c _ => c) (fun cm => cm) [(9, [1, 2, 3, 4, 0, 0, 0, 7, 0, 0, 0, 0, 0, 0])]
    ⟨[(5, ⟨8, true, false⟩)], [(5, 8)], 0⟩
    ⟨fun j => by simp [keys], by simp [keys], by simp [keys]⟩ (fun _ => rfl)

end Cobalt
